import Mathlib

/-!
# Verification of the ailuropoda schema-driven binary codec

The repository contains a demo program (`my_data.c`), struct declarations
(`tests/my_data.h`, `tests/integration/simple_data.h`) and an integration
test harness (`simple_data_test_harness.cpp`).  The codec engine itself
(the generated `encode_*` / `decode_*` functions of `cbor_generated.h`,
backed by the tinycbor item primitives) is not part of the given sources,
so the Codec Engine below is modelled from the specification's description
of the encode and decode algorithms, its data model and its error kinds.
The demo `main` of `my_data.c` is embedded directly from its source.
-/

namespace Ailuropoda

/-- Scalar type tags of the Field Descriptor Model (spec §3: `Bool`,
`Int32`, `UInt64`, `Float32`, `Float64`; `UInt8` appears as a
`FixedArray` element tag in the concrete scenario of spec §8).
Scalar payloads are transported untouched by the codec, so they are
modelled as mathematical integers tagged with their wire type. -/
inductive STag where
| boolT
| int32
| uint64
| float32
| float64
| uint8
deriving DecidableEq, Repr

mutual

/-- Modelled from the spec: one Field Descriptor of the Field Descriptor
Model (spec §3) — the generator that produces per-shape field lists is not
under `src/`.  `skip` is the descriptor of a member with no binary
representation. -/
inductive Field where
| scalarF (tag : STag)
| fixedText (capacity : Nat)
| fixedArray (tag : STag) (count : Nat)
| nested (s : Shape)
| optionalOwnedText
| optionalOwnedScalar (tag : STag)
| skip
deriving DecidableEq

/-- Modelled from the spec: a Shape is an ordered sequence of Field
Descriptors (spec §3). -/
inductive Shape where
| nil
| cons (f : Field) (s : Shape)
deriving DecidableEq

end

mutual

/-- Modelled from the spec: one field value of a Record.  Optional owned
members are reachable through a nullable reference, modelled by `Option`;
`unitV` stands for a member with no binary representation (a `skip`
field's host-record slot, e.g. a function pointer). -/
inductive Value where
| scalarV (v : Int)
| textV (s : String)
| arrayV (vs : List Int)
| nestedV (r : RecordV)
| optTextV (s : Option String)
| optScalarV (v : Option Int)
| unitV
deriving DecidableEq

/-- Modelled from the spec: a Record is one instance of a Shape, a
mapping from field position to value (spec §3). -/
inductive RecordV where
| nil
| cons (v : Value) (r : RecordV)
deriving DecidableEq

end

/-- Modelled from the spec: one typed wire item of the length-prefixed
item stream (spec §6).  A composite item is represented by its header
carrying the declared element count, followed in the stream by its
element items. -/
inductive Token where
| scalar (tag : STag) (v : Int)
| text (s : String)
| arrayHeader (n : Nat)
deriving DecidableEq, Repr

/-- Modelled from the spec: encode errors (spec §7: capacity exceeded /
buffer exhausted).  `invalidValue` is the model's image of a record value
that does not have the static C type its descriptor requires; it cannot
arise for well-typed records. -/
inductive EncodeError where
| capacityExceeded
| invalidValue
deriving DecidableEq, Repr

/-- Modelled from the spec: decode error kinds (spec §7).
`targetMismatch` is the model's image of a target record slot that does
not have the static C type its descriptor requires; it cannot arise for
well-typed targets. -/
inductive DecodeError where
| typeMismatch
| shapeMismatch
| overflow
| truncated
| targetMismatch
deriving DecidableEq, Repr

/-- Length of a Shape (number of field descriptors). -/
def Shape.lengthS : Shape → Nat
| .nil => 0
| .cons _ s => s.lengthS + 1

/-- Append of Shapes. -/
def Shape.appendS : Shape → Shape → Shape
| .nil, t => t
| .cons f s, t => .cons f (s.appendS t)

/-- Field descriptor at a position of a Shape. -/
def Shape.getS : Shape → Nat → Option Field
| .nil, _ => none
| .cons f _, 0 => some f
| .cons _ s, n + 1 => s.getS n

/-- Modelled from the spec: the Shape's field count excluding `Skip`
fields — the element count declared by the record's composite item
(spec §4.2). -/
def Shape.nonSkipCount : Shape → Nat
| .nil => 0
| .cons .skip s => s.nonSkipCount
| .cons _ s => s.nonSkipCount + 1

/-- Length of a Record (number of field values). -/
def RecordV.lengthR : RecordV → Nat
| .nil => 0
| .cons _ r => r.lengthR + 1

/-- Append of Records. -/
def RecordV.appendR : RecordV → RecordV → RecordV
| .nil, t => t
| .cons v r, t => .cons v (r.appendR t)

/-- Value at a position of a Record. -/
def RecordV.getR : RecordV → Nat → Option Value
| .nil, _ => none
| .cons v _, 0 => some v
| .cons _ r, n + 1 => r.getR n

/-- Drop the first `n` field values of a Record. -/
def RecordV.dropR : Nat → RecordV → RecordV
| 0, r => r
| _ + 1, .nil => .nil
| n + 1, .cons _ r => RecordV.dropR n r

/-- Insert a value at position `n` of a Record. -/
def RecordV.insertAtR : Nat → Value → RecordV → RecordV
| 0, v, r => .cons v r
| _ + 1, v, .nil => .cons v .nil
| n + 1, v, .cons w r => .cons w (RecordV.insertAtR n v r)

mutual

/-- Modelled from the spec: the encode path of the Codec Engine over a
field list (spec §4.2), iterating fields in descriptor order and
concatenating each field's wire items.  The generated `encode_*`
functions of `cbor_generated.h` are not under `src/`. -/
def encodeFields : Shape → RecordV → Except EncodeError (List Token)
| .nil, .nil => .ok []
| .cons f s, .cons v r =>
    match encodeField f v with
    | .error e => .error e
    | .ok tf =>
      match encodeFields s r with
      | .error e => .error e
      | .ok ts => .ok (tf ++ ts)
| _, _ => .error .invalidValue

/-- Modelled from the spec: per-tag encode dispatch (spec §4.2): scalars
emit one scalar item; `FixedText` emits a text item of the actual content
length, failing with `EncodeError` when the content does not fit in the
declared capacity with its terminator; `FixedArray` emits a composite of
exactly `count` scalar items; `Nested` recursively encodes as a composite
item; a present optional encodes as its underlying tag and an absent one
emits nothing; `Skip` emits nothing. -/
def encodeField : Field → Value → Except EncodeError (List Token)
| .scalarF tag, .scalarV v => .ok [.scalar tag v]
| .fixedText cap, .textV s =>
    if cap ≤ s.length then .error .capacityExceeded else .ok [.text s]
| .fixedArray tag n, .arrayV vs =>
    if vs.length = n then .ok (.arrayHeader n :: vs.map (fun v => .scalar tag v))
    else .error .invalidValue
| .nested ns, .nestedV nr =>
    match encodeFields ns nr with
    | .error e => .error e
    | .ok ts => .ok (.arrayHeader ns.nonSkipCount :: ts)
| .optionalOwnedText, .optTextV (some s) => .ok [.text s]
| .optionalOwnedText, .optTextV none => .ok []
| .optionalOwnedScalar tag, .optScalarV (some v) => .ok [.scalar tag v]
| .optionalOwnedScalar _, .optScalarV none => .ok []
| .skip, _ => .ok []
| _, _ => .error .invalidValue

end

/-- Modelled from the spec: `encode(record, shape) -> bytes` (spec §4.2):
open a composite item sized to the Shape's field count excluding `Skip`
fields, then the fields' items in descriptor order. -/
def encode (r : RecordV) (s : Shape) : Except EncodeError (List Token) :=
  match encodeFields s r with
  | .error e => .error e
  | .ok ts => .ok (.arrayHeader s.nonSkipCount :: ts)

/-- Modelled from the spec: reading the `count` scalar elements of a
`FixedArray`'s composite item (spec §4.3). -/
def decodeScalars (tag : STag) : Nat → List Token → Except DecodeError (List Int × List Token)
| 0, toks => .ok ([], toks)
| n + 1, .scalar tg v :: rest =>
    if tg = tag then
      match decodeScalars tag n rest with
      | .error e => .error e
      | .ok (vs, r) => .ok (v :: vs, r)
    else .error .typeMismatch
| _ + 1, .text _ :: _ => .error .typeMismatch
| _ + 1, .arrayHeader _ :: _ => .error .typeMismatch
| _ + 1, [] => .error .truncated

mutual

/-- Modelled from the spec: the decode path of the Codec Engine over a
field list (spec §4.3), iterating descriptor fields in order.  The target
record is threaded through like the caller's struct the generated
`decode_*` functions write into: the first field failure aborts the whole
decode, leaving the remaining target fields as the caller initialized
them. -/
def decodeFields : Shape → RecordV → List Token → RecordV × Except DecodeError (List Token)
| .nil, tgt, toks => (tgt, .ok toks)
| .cons f s, .cons t tr, toks =>
    match decodeField f t toks with
    | (t2, .ok rest) =>
        let res := decodeFields s tr rest
        (.cons t2 res.1, res.2)
    | (t2, .error e) => (.cons t2 tr, .error e)
| .cons _ _, .nil, _ => (.nil, .error .targetMismatch)

/-- Modelled from the spec: per-tag decode dispatch (spec §4.3): scalars
fail with `TypeMismatch` on a wrong wire tag; `FixedText` fails with
`Overflow` when the wire content length reaches the declared capacity and
otherwise stores content plus terminator; `FixedArray` opens a composite
and fails with `ShapeMismatch` on a count disagreement; `Nested`
recursively decodes into the nested pre-allocated target; optionals read
the next item as the underlying type into caller-pre-allocated storage;
`Skip` advances no cursor and writes nothing. -/
def decodeField : Field → Value → List Token → Value × Except DecodeError (List Token)
| .scalarF tag, t, .scalar tg v :: rest =>
    if tg = tag then (.scalarV v, .ok rest) else (t, .error .typeMismatch)
| .scalarF _, t, _ :: _ => (t, .error .typeMismatch)
| .scalarF _, t, [] => (t, .error .truncated)
| .fixedText cap, t, .text s :: rest =>
    if cap ≤ s.length then (t, .error .overflow) else (.textV s, .ok rest)
| .fixedText _, t, _ :: _ => (t, .error .typeMismatch)
| .fixedText _, t, [] => (t, .error .truncated)
| .fixedArray tag n, t, .arrayHeader c :: rest =>
    if c = n then
      match decodeScalars tag n rest with
      | .ok (vs, rest2) => (.arrayV vs, .ok rest2)
      | .error e => (t, .error e)
    else (t, .error .shapeMismatch)
| .fixedArray _ _, t, _ :: _ => (t, .error .typeMismatch)
| .fixedArray _ _, t, [] => (t, .error .truncated)
| .nested ns, .nestedV nt, .arrayHeader c :: rest =>
    if c = ns.nonSkipCount then
      let res := decodeFields ns nt rest
      (.nestedV res.1, res.2)
    else (.nestedV nt, .error .shapeMismatch)
| .nested _, .nestedV nt, _ :: _ => (.nestedV nt, .error .typeMismatch)
| .nested _, .nestedV nt, [] => (.nestedV nt, .error .truncated)
| .nested _, t, _ => (t, .error .targetMismatch)
| .optionalOwnedText, .optTextV (some _), .text s :: rest => (.optTextV (some s), .ok rest)
| .optionalOwnedText, .optTextV (some s0), _ :: _ => (.optTextV (some s0), .error .typeMismatch)
| .optionalOwnedText, .optTextV (some s0), [] => (.optTextV (some s0), .error .truncated)
| .optionalOwnedText, t, _ => (t, .error .targetMismatch)
| .optionalOwnedScalar tag, .optScalarV (some v0), .scalar tg v :: rest =>
    if tg = tag then (.optScalarV (some v), .ok rest)
    else (.optScalarV (some v0), .error .typeMismatch)
| .optionalOwnedScalar _, .optScalarV (some v0), _ :: _ =>
    (.optScalarV (some v0), .error .typeMismatch)
| .optionalOwnedScalar _, .optScalarV (some v0), [] =>
    (.optScalarV (some v0), .error .truncated)
| .optionalOwnedScalar _, t, _ => (t, .error .targetMismatch)
| .skip, t, toks => (t, .ok toks)

end

/-- Modelled from the spec: `decode(bytes, shape, target)` (spec §4.3):
open the composite item, verify its declared element count against the
Shape's non-Skip field count (`ShapeMismatch` otherwise), then decode the
fields in order into the caller-constructed target. -/
def decode (toks : List Token) (s : Shape) (tgt : RecordV) : RecordV × Except DecodeError (List Token) :=
match toks with
| .arrayHeader c :: rest =>
    if c = s.nonSkipCount then decodeFields s tgt rest else (tgt, .error .shapeMismatch)
| _ :: _ => (tgt, .error .typeMismatch)
| [] => (tgt, .error .truncated)

mutual

/-- A record has valid field values for a shape (spec §8 round-trip
hypothesis): field values carry the static type their descriptor
requires, text content fits within the declared capacity with its
terminator, fixed arrays have the declared length, nested records are
valid for the nested shape, and every optional reference is present. -/
def validFields : Shape → RecordV → Bool
| .nil, .nil => true
| .cons f s, .cons v r => validField f v && validFields s r
| _, _ => false

/-- One field value is valid for its descriptor. -/
def validField : Field → Value → Bool
| .scalarF _, .scalarV _ => true
| .fixedText cap, .textV s => decide (s.length < cap)
| .fixedArray _ n, .arrayV vs => vs.length == n
| .nested ns, .nestedV nr => validFields ns nr
| .optionalOwnedText, .optTextV (some _) => true
| .optionalOwnedScalar _, .optScalarV (some _) => true
| .skip, _ => true
| _, _ => false

end

mutual

/-- A caller-prepared decode target is well-formed for a shape
(spec §4.3: a caller-constructed Record with every optional member's
backing storage already allocated): slot count matches, nested slots are
records well-formed for the nested shape, and optional slots carry
present (caller-pre-allocated) storage. -/
def targetOkFields : Shape → RecordV → Bool
| .nil, .nil => true
| .cons f s, .cons t tr => targetOkField f t && targetOkFields s tr
| _, _ => false

/-- One target slot is well-formed for its descriptor. -/
def targetOkField : Field → Value → Bool
| .nested ns, .nestedV nt => targetOkFields ns nt
| .nested _, _ => false
| .optionalOwnedText, .optTextV (some _) => true
| .optionalOwnedText, _ => false
| .optionalOwnedScalar _, .optScalarV (some _) => true
| .optionalOwnedScalar _, _ => false
| _, _ => true

end

mutual

/-- The record a successful decode produces: every non-`skip` field takes
the encoded record's value, a `skip` field keeps the target's value (the
codec neither reads nor writes it), recursively inside nested records. -/
def mergeFields : Shape → RecordV → RecordV → RecordV
| .nil, _, tgt => tgt
| .cons f s, .cons v r, .cons t tr => .cons (mergeField f v t) (mergeFields s r tr)
| .cons _ _, _, tgt => tgt

/-- Per-field decode result value; see `mergeFields`. -/
def mergeField : Field → Value → Value → Value
| .skip, _, t => t
| .nested ns, .nestedV nr, .nestedV nt => .nestedV (mergeFields ns nr nt)
| _, v, _ => v

end

/-- Modelled from the spec: the byte length of one shortest-form item
header carrying the value `n` (spec §6 canonical header rules; the byte
primitives themselves are the external tinycbor library). -/
def headerSize (n : Nat) : Nat :=
  if n < 24 then 1 else if n < 256 then 2 else if n < 65536 then 3
  else if n < 4294967296 then 5 else 9

/-- Modelled from the spec: the number of wire bytes one item occupies
under the canonical header rules of spec §6. -/
def tokenSize : Token → Nat
| .scalar .float32 _ => 5
| .scalar .float64 _ => 9
| .scalar .boolT _ => 1
| .scalar _ v => if 0 ≤ v then headerSize v.toNat else headerSize (-(v + 1)).toNat
| .text s => headerSize s.utf8ByteSize + s.utf8ByteSize
| .arrayHeader n => headerSize n

/-- Modelled from the spec: the encoded byte length of an item stream. -/
def wireSize (ts : List Token) : Nat := (ts.map tokenSize).sum

/-- The encoded byte length of a record under a shape, when encoding
succeeds. -/
def encodedLength (r : RecordV) (s : Shape) : Option Nat :=
  (encode r s).toOption.map wireSize

mutual

/-- A shape contains no `skip` descriptor, recursively inside nested
shapes. -/
def skipFreeS : Shape → Bool
| .nil => true
| .cons f s => skipFreeF f && skipFreeS s

/-- A field descriptor is not `skip` and contains no `skip`, recursively
inside nested shapes. -/
def skipFreeF : Field → Bool
| .skip => false
| .nested ns => skipFreeS ns
| _ => true

end

mutual

/-- Field-by-field agreement of two records over a shape, on every field
that has a binary representation: `skip` slots are ignored, nested
records are compared recursively, every other field's value must be
equal. -/
def agreeFields : Shape → RecordV → RecordV → Bool
| .nil, _, _ => true
| .cons f s, .cons a r1, .cons b r2 => agreeField f a b && agreeFields s r1 r2
| .cons _ _, _, _ => false

/-- Per-field agreement; see `agreeFields`. -/
def agreeField : Field → Value → Value → Bool
| .skip, _, _ => true
| .nested ns, .nestedV a, .nestedV b => agreeFields ns a b
| .nested _, _, _ => false
| .scalarF _, .scalarV a, .scalarV b => a == b
| .fixedText _, .textV a, .textV b => a == b
| .fixedArray _ _, .arrayV a, .arrayV b => a == b
| .optionalOwnedText, .optTextV a, .optTextV b => a == b
| .optionalOwnedScalar _, .optScalarV a, .optScalarV b => a == b
| _, _, _ => false

end

mutual

/-- The validity notion spelled out by the round-trip property's own
wording (spec §8): field values carry the static type their descriptor
requires, text content is within the declared capacity, and fixed arrays
have the declared length.  Unlike `validFields` it does not require
optional references to be present. -/
def claimValidFields : Shape → RecordV → Bool
| .nil, .nil => true
| .cons f s, .cons v r => claimValidField f v && claimValidFields s r
| _, _ => false

/-- One field value is valid in the sense of the round-trip property's
wording; see `claimValidFields`. -/
def claimValidField : Field → Value → Bool
| .scalarF _, .scalarV _ => true
| .fixedText cap, .textV s => decide (s.length < cap)
| .fixedArray _ n, .arrayV vs => vs.length == n
| .nested ns, .nestedV nr => claimValidFields ns nr
| .optionalOwnedText, .optTextV _ => true
| .optionalOwnedScalar _, .optScalarV _ => true
| .skip, _ => true
| _, _ => false

end

/-- The `Person` struct of `tests/my_data.h` as the demo `main` of
`my_data.c` observes it.  Numeric members (the `float` `location.y`, the
`double` `balance`, the `uint64_t` `id`, the `int` members) are modelled
as integers: `main` only stores and equality-compares them.  The
`int scores[5]` array is modelled by five members, mirroring `main`'s
index-by-index comparison loop.  `email` (`char*`) and `favorite_number`
(`int*`) are the manually-managed pointer members; `Option` models their
nullability at comparison time. -/
structure PersonC where
  name : String
  age : Int
  is_student : Bool
  location_x : Int
  location_y : Int
  scores0 : Int
  scores1 : Int
  scores2 : Int
  scores3 : Int
  scores4 : Int
  email : String
  id : Int
  balance : Int
  address_street : String
  address_number : Int
  address_city : String
  notes : String
  favorite_number : Option Int

/-- The favorite-number comparison of `my_data.c` lines 157-158: a value
mismatch is flagged only when both pointers are non-null, and a pointer
mismatch when exactly one is null. -/
def favAgree : Option Int → Option Int → Bool
| some a, some b => a == b
| none, none => true
| _, _ => false

/-- The field-by-field verification of `my_data.c` lines 141-158:
`success` stays `true` exactly when every comparison passes. -/
def personCompare (o d : PersonC) : Bool :=
  (o.name == d.name) && (o.age == d.age) && (o.is_student == d.is_student) &&
  (o.location_x == d.location_x) && (o.location_y == d.location_y) &&
  (o.scores0 == d.scores0) && (o.scores1 == d.scores1) && (o.scores2 == d.scores2) &&
  (o.scores3 == d.scores3) && (o.scores4 == d.scores4) &&
  (o.email == d.email) && (o.id == d.id) && (o.balance == d.balance) &&
  (o.address_street == d.address_street) && (o.address_number == d.address_number) &&
  (o.address_city == d.address_city) && (o.notes == d.notes) &&
  favAgree o.favorite_number d.favorite_number

/-- The exit status of the demo `main` of `my_data.c`, as a function of
the success of each fallible step in source order (email allocation,
favorite-number allocation, encode, decoded-email allocation,
decoded-favorite-number allocation, decode) and of the original and
decoded `Person` values it verifies: every early-return path yields 1,
and the final return is 0 on verification success and 1 otherwise. -/
def mainExit (emailAlloc favAlloc encodeOk decEmailAlloc decFavAlloc decodeOk : Bool)
    (original decoded : PersonC) : Int :=
  if !emailAlloc then 1
  else if !favAlloc then 1
  else if !encodeOk then 1
  else if !decEmailAlloc then 1
  else if !decFavAlloc then 1
  else if !decodeOk then 1
  else if personCompare original decoded then 0 else 1

theorem validFields_nil {r : RecordV} (h : validFields .nil r = true) : r = .nil := by
  cases r <;> simp_all [validFields]

theorem validFields_cons {f s r} (h : validFields (.cons f s) r = true) :
    ∃ v r', r = .cons v r' ∧ validField f v = true ∧ validFields s r' = true := by
  cases r with
  | nil => simp [validFields] at h
  | cons v r' =>
    simp [validFields] at h
    exact ⟨v, r', rfl, h.1, h.2⟩

theorem targetOkFields_nil {tgt : RecordV} (h : targetOkFields .nil tgt = true) : tgt = .nil := by
  cases tgt <;> simp_all [targetOkFields]

theorem targetOkFields_cons {f s tgt} (h : targetOkFields (.cons f s) tgt = true) :
    ∃ t tgt', tgt = .cons t tgt' ∧ targetOkField f t = true ∧ targetOkFields s tgt' = true := by
  cases tgt with
  | nil => simp [targetOkFields] at h
  | cons t tgt' =>
    simp [targetOkFields] at h
    exact ⟨t, tgt', rfl, h.1, h.2⟩

theorem validField_scalarF {tag v} (h : validField (.scalarF tag) v = true) :
    ∃ v0, v = .scalarV v0 := by
  cases v <;> simp_all [validField]

theorem validField_fixedText {cap v} (h : validField (.fixedText cap) v = true) :
    ∃ s0, v = .textV s0 ∧ s0.length < cap := by
  cases v <;> simp_all [validField]

theorem validField_fixedArray {tag n v} (h : validField (.fixedArray tag n) v = true) :
    ∃ vs, v = .arrayV vs ∧ vs.length = n := by
  cases v <;> simp_all [validField]

theorem validField_nested {ns v} (h : validField (.nested ns) v = true) :
    ∃ nr, v = .nestedV nr ∧ validFields ns nr = true := by
  cases v <;> simp_all [validField]

theorem validField_optText {v} (h : validField .optionalOwnedText v = true) :
    ∃ s0, v = .optTextV (some s0) := by
  cases v with
  | optTextV sv =>
    cases sv with
    | some s0 => exact ⟨s0, rfl⟩
    | none => simp [validField] at h
  | scalarV a => simp [validField] at h
  | textV a => simp [validField] at h
  | arrayV a => simp [validField] at h
  | nestedV a => simp [validField] at h
  | optScalarV a => simp [validField] at h
  | unitV => simp [validField] at h

theorem validField_optScalar {tag v} (h : validField (.optionalOwnedScalar tag) v = true) :
    ∃ v0, v = .optScalarV (some v0) := by
  cases v with
  | optScalarV sv =>
    cases sv with
    | some v0 => exact ⟨v0, rfl⟩
    | none => simp [validField] at h
  | scalarV a => simp [validField] at h
  | textV a => simp [validField] at h
  | arrayV a => simp [validField] at h
  | nestedV a => simp [validField] at h
  | optTextV a => simp [validField] at h
  | unitV => simp [validField] at h

theorem targetOkField_nested {ns t} (h : targetOkField (.nested ns) t = true) :
    ∃ nt, t = .nestedV nt ∧ targetOkFields ns nt = true := by
  cases t <;> simp_all [targetOkField]

theorem targetOkField_optText {t} (h : targetOkField .optionalOwnedText t = true) :
    ∃ t0, t = .optTextV (some t0) := by
  cases t with
  | optTextV st =>
    cases st with
    | some t0 => exact ⟨t0, rfl⟩
    | none => simp [targetOkField] at h
  | scalarV a => simp [targetOkField] at h
  | textV a => simp [targetOkField] at h
  | arrayV a => simp [targetOkField] at h
  | nestedV a => simp [targetOkField] at h
  | optScalarV a => simp [targetOkField] at h
  | unitV => simp [targetOkField] at h

theorem targetOkField_optScalar {tag t} (h : targetOkField (.optionalOwnedScalar tag) t = true) :
    ∃ t0, t = .optScalarV (some t0) := by
  cases t with
  | optScalarV st =>
    cases st with
    | some t0 => exact ⟨t0, rfl⟩
    | none => simp [targetOkField] at h
  | scalarV a => simp [targetOkField] at h
  | textV a => simp [targetOkField] at h
  | arrayV a => simp [targetOkField] at h
  | nestedV a => simp [targetOkField] at h
  | optTextV a => simp [targetOkField] at h
  | unitV => simp [targetOkField] at h

theorem decodeScalars_map (tag : STag) : ∀ (vs : List Int) (rest : List Token),
    decodeScalars tag vs.length (vs.map (fun v => Token.scalar tag v) ++ rest) = .ok (vs, rest) := by
  intro vs
  induction vs with
  | nil => intro rest; simp [decodeScalars]
  | cons v vs ih => intro rest; simp [decodeScalars, ih]

mutual

theorem rt_fields : ∀ (s : Shape) (r tgt : RecordV) (ts rest : List Token),
    validFields s r = true → targetOkFields s tgt = true →
    encodeFields s r = .ok ts →
    decodeFields s tgt (ts ++ rest) = (mergeFields s r tgt, .ok rest)
| .nil, r, tgt, ts, rest => by
    intro hv ht he
    obtain rfl := validFields_nil hv
    obtain rfl := targetOkFields_nil ht
    simp [encodeFields] at he
    subst he
    simp [decodeFields, mergeFields]
| .cons f s', r, tgt, ts, rest => by
    intro hv ht he
    obtain ⟨v, r', rfl, hv1, hv2⟩ := validFields_cons hv
    obtain ⟨t, tgt', rfl, ht1, ht2⟩ := targetOkFields_cons ht
    rw [encodeFields] at he
    cases hef : encodeField f v with
    | error e => rw [hef] at he; exact absurd he (by simp)
    | ok tf =>
      rw [hef] at he
      cases hefs : encodeFields s' r' with
      | error e => rw [hefs] at he; exact absurd he (by simp)
      | ok tfs =>
        rw [hefs] at he
        simp at he
        subst he
        have h1 := rt_field f v t tf (tfs ++ rest) hv1 ht1 hef
        have h2 := rt_fields s' r' tgt' tfs rest hv2 ht2 hefs
        rw [decodeFields, List.append_assoc, h1]
        simp [h2, mergeFields]

theorem rt_field : ∀ (f : Field) (v t : Value) (ts rest : List Token),
    validField f v = true → targetOkField f t = true →
    encodeField f v = .ok ts →
    decodeField f t (ts ++ rest) = (mergeField f v t, .ok rest)
| .scalarF tag, v, t, ts, rest => by
    intro hv ht he
    obtain ⟨v0, rfl⟩ := validField_scalarF hv
    simp [encodeField] at he
    subst he
    simp [decodeField, mergeField]
| .fixedText cap, v, t, ts, rest => by
    intro hv ht he
    obtain ⟨s0, rfl, hlen⟩ := validField_fixedText hv
    have hlt : ¬ cap ≤ s0.length := Nat.not_le.mpr hlen
    simp [encodeField, hlt] at he
    subst he
    simp [decodeField, hlt, mergeField]
| .fixedArray tag n, v, t, ts, rest => by
    intro hv ht he
    obtain ⟨vs, rfl, hlen⟩ := validField_fixedArray hv
    subst hlen
    simp [encodeField] at he
    subst he
    simp [decodeField, decodeScalars_map, mergeField]
| .nested ns, v, t, ts, rest => by
    intro hv ht he
    obtain ⟨nr, rfl, hv'⟩ := validField_nested hv
    obtain ⟨nt, rfl, ht'⟩ := targetOkField_nested ht
    rw [encodeField] at he
    cases henc : encodeFields ns nr with
    | error e => rw [henc] at he; exact absurd he (by simp)
    | ok body =>
      rw [henc] at he
      simp at he
      subst he
      have h2 := rt_fields ns nr nt body rest hv' ht' henc
      rw [List.cons_append, decodeField]
      simp [h2, mergeField]
| .optionalOwnedText, v, t, ts, rest => by
    intro hv ht he
    obtain ⟨s0, rfl⟩ := validField_optText hv
    obtain ⟨t0, rfl⟩ := targetOkField_optText ht
    simp [encodeField] at he
    subst he
    simp [decodeField, mergeField]
| .optionalOwnedScalar tag, v, t, ts, rest => by
    intro hv ht he
    obtain ⟨v0, rfl⟩ := validField_optScalar hv
    obtain ⟨t0, rfl⟩ := targetOkField_optScalar ht
    simp [encodeField] at he
    subst he
    simp [decodeField, mergeField]
| .skip, v, t, ts, rest => by
    intro hv ht he
    simp [encodeField] at he
    subst he
    simp [decodeField, mergeField]

end

mutual

theorem encodeFields_total : ∀ (s : Shape) (r : RecordV), validFields s r = true →
    ∃ ts, encodeFields s r = .ok ts
| .nil, r => by
    intro hv
    obtain rfl := validFields_nil hv
    exact ⟨[], by simp [encodeFields]⟩
| .cons f s', r => by
    intro hv
    obtain ⟨v, r', rfl, hv1, hv2⟩ := validFields_cons hv
    obtain ⟨tf, hef⟩ := encodeField_total f v hv1
    obtain ⟨tfs, hefs⟩ := encodeFields_total s' r' hv2
    exact ⟨tf ++ tfs, by rw [encodeFields, hef, hefs]⟩

theorem encodeField_total : ∀ (f : Field) (v : Value), validField f v = true →
    ∃ ts, encodeField f v = .ok ts
| .scalarF tag, v => by
    intro hv
    obtain ⟨v0, rfl⟩ := validField_scalarF hv
    exact ⟨[.scalar tag v0], by simp [encodeField]⟩
| .fixedText cap, v => by
    intro hv
    obtain ⟨s0, rfl, hlen⟩ := validField_fixedText hv
    exact ⟨[.text s0], by simp [encodeField, Nat.not_le.mpr hlen]⟩
| .fixedArray tag n, v => by
    intro hv
    obtain ⟨vs, rfl, hlen⟩ := validField_fixedArray hv
    subst hlen
    exact ⟨.arrayHeader vs.length :: vs.map (fun v => Token.scalar tag v),
      by simp [encodeField]⟩
| .nested ns, v => by
    intro hv
    obtain ⟨nr, rfl, hv'⟩ := validField_nested hv
    obtain ⟨body, henc⟩ := encodeFields_total ns nr hv'
    exact ⟨.arrayHeader ns.nonSkipCount :: body, by rw [encodeField, henc]⟩
| .optionalOwnedText, v => by
    intro hv
    obtain ⟨s0, rfl⟩ := validField_optText hv
    exact ⟨[.text s0], by simp [encodeField]⟩
| .optionalOwnedScalar tag, v => by
    intro hv
    obtain ⟨v0, rfl⟩ := validField_optScalar hv
    exact ⟨[.scalar tag v0], by simp [encodeField]⟩
| .skip, v => by
    intro hv
    exact ⟨[], by simp [encodeField]⟩

end

mutual

theorem agreeFields_merge : ∀ (s : Shape) (r tgt : RecordV),
    validFields s r = true → targetOkFields s tgt = true →
    agreeFields s r (mergeFields s r tgt) = true
| .nil, r, tgt => by
    intro hv ht
    simp [agreeFields]
| .cons f s', r, tgt => by
    intro hv ht
    obtain ⟨v, r', rfl, hv1, hv2⟩ := validFields_cons hv
    obtain ⟨t, tgt', rfl, ht1, ht2⟩ := targetOkFields_cons ht
    rw [mergeFields, agreeFields]
    simp [agreeField_merge f v t hv1 ht1, agreeFields_merge s' r' tgt' hv2 ht2]

theorem agreeField_merge : ∀ (f : Field) (v t : Value),
    validField f v = true → targetOkField f t = true →
    agreeField f v (mergeField f v t) = true
| .scalarF tag, v, t => by
    intro hv ht
    obtain ⟨v0, rfl⟩ := validField_scalarF hv
    simp [mergeField, agreeField]
| .fixedText cap, v, t => by
    intro hv ht
    obtain ⟨s0, rfl, _⟩ := validField_fixedText hv
    simp [mergeField, agreeField]
| .fixedArray tag n, v, t => by
    intro hv ht
    obtain ⟨vs, rfl, _⟩ := validField_fixedArray hv
    simp [mergeField, agreeField]
| .nested ns, v, t => by
    intro hv ht
    obtain ⟨nr, rfl, hv'⟩ := validField_nested hv
    obtain ⟨nt, rfl, ht'⟩ := targetOkField_nested ht
    simp [mergeField, agreeField, agreeFields_merge ns nr nt hv' ht']
| .optionalOwnedText, v, t => by
    intro hv ht
    obtain ⟨s0, rfl⟩ := validField_optText hv
    simp [mergeField, agreeField]
| .optionalOwnedScalar tag, v, t => by
    intro hv ht
    obtain ⟨v0, rfl⟩ := validField_optScalar hv
    simp [mergeField, agreeField]
| .skip, v, t => by
    intro hv ht
    simp [agreeField]

end

mutual

theorem mergeFields_skipFree : ∀ (s : Shape) (r tgt : RecordV),
    skipFreeS s = true → validFields s r = true → targetOkFields s tgt = true →
    mergeFields s r tgt = r
| .nil, r, tgt => by
    intro hs hv ht
    obtain rfl := validFields_nil hv
    obtain rfl := targetOkFields_nil ht
    simp [mergeFields]
| .cons f s', r, tgt => by
    intro hs hv ht
    obtain ⟨v, r', rfl, hv1, hv2⟩ := validFields_cons hv
    obtain ⟨t, tgt', rfl, ht1, ht2⟩ := targetOkFields_cons ht
    simp [skipFreeS] at hs
    rw [mergeFields, mergeField_skipFree f v t hs.1 hv1 ht1,
        mergeFields_skipFree s' r' tgt' hs.2 hv2 ht2]

theorem mergeField_skipFree : ∀ (f : Field) (v t : Value),
    skipFreeF f = true → validField f v = true → targetOkField f t = true →
    mergeField f v t = v
| .scalarF tag, v, t => by
    intro hs hv ht
    obtain ⟨v0, rfl⟩ := validField_scalarF hv
    simp [mergeField]
| .fixedText cap, v, t => by
    intro hs hv ht
    obtain ⟨s0, rfl, _⟩ := validField_fixedText hv
    simp [mergeField]
| .fixedArray tag n, v, t => by
    intro hs hv ht
    obtain ⟨vs, rfl, _⟩ := validField_fixedArray hv
    simp [mergeField]
| .nested ns, v, t => by
    intro hs hv ht
    obtain ⟨nr, rfl, hv'⟩ := validField_nested hv
    obtain ⟨nt, rfl, ht'⟩ := targetOkField_nested ht
    simp [skipFreeF] at hs
    simp [mergeField, mergeFields_skipFree ns nr nt hs hv' ht']
| .optionalOwnedText, v, t => by
    intro hs hv ht
    obtain ⟨s0, rfl⟩ := validField_optText hv
    simp [mergeField]
| .optionalOwnedScalar tag, v, t => by
    intro hs hv ht
    obtain ⟨v0, rfl⟩ := validField_optScalar hv
    simp [mergeField]
| .skip, v, t => by
    intro hs hv ht
    simp [skipFreeF] at hs

end

theorem decode_encode {s : Shape} {r tgt : RecordV} {ts : List Token}
    (hv : validFields s r = true) (ht : targetOkFields s tgt = true)
    (he : encode r s = .ok ts) :
    decode ts s tgt = (mergeFields s r tgt, .ok []) := by
  rw [encode] at he
  cases hef : encodeFields s r with
  | error e => rw [hef] at he; exact absurd he (by simp)
  | ok body =>
    rw [hef] at he
    simp at he
    subst he
    have hrt := rt_fields s r tgt body [] hv ht hef
    rw [List.append_nil] at hrt
    simp [decode, hrt]

theorem decodeFields_error_frame : ∀ (s : Shape) (tgt : RecordV) (toks : List Token)
    (e : DecodeError), s.lengthS = tgt.lengthR →
    (decodeFields s tgt toks).2 = .error e →
    ∃ k f t ts2, k < s.lengthS ∧ s.getS k = some f ∧ tgt.getR k = some t ∧
      (decodeField f t ts2).2 = .error e ∧
      (decodeFields s tgt toks).1.getR k = some (decodeField f t ts2).1 ∧
      ∀ j, k < j → (decodeFields s tgt toks).1.getR j = tgt.getR j
| .nil, tgt, toks, e => by
    intro hlen herr
    simp [decodeFields] at herr
| .cons f s', tgt, toks, e => by
    intro hlen herr
    cases tgt with
    | nil => simp [Shape.lengthS, RecordV.lengthR] at hlen
    | cons t tr =>
      simp [Shape.lengthS, RecordV.lengthR] at hlen
      cases hdf : decodeField f t toks with
      | mk t2 res =>
        cases res with
        | error e' =>
          have hres : decodeFields (Shape.cons f s') (RecordV.cons t tr) toks
              = (RecordV.cons t2 tr, Except.error e') := by
            rw [decodeFields, hdf]
          rw [hres] at herr
          simp at herr
          subst herr
          rw [hres]
          refine ⟨0, f, t, toks, ?_, ?_, ?_, ?_, ?_, ?_⟩
          · simp [Shape.lengthS]
          · simp [Shape.getS]
          · simp [RecordV.getR]
          · rw [hdf]
          · rw [hdf]
            simp [RecordV.getR]
          · intro j hj
            cases j with
            | zero => omega
            | succ j' => simp [RecordV.getR]
        | ok rest =>
          have hres : decodeFields (Shape.cons f s') (RecordV.cons t tr) toks
              = (RecordV.cons t2 (decodeFields s' tr rest).1,
                 (decodeFields s' tr rest).2) := by
            rw [decodeFields, hdf]
          rw [hres] at herr
          simp at herr
          obtain ⟨k, f0, t0, ts2, hk, hgf, hgt, herr0, hget, hafter⟩ :=
            decodeFields_error_frame s' tr rest e hlen herr
          rw [hres]
          refine ⟨k + 1, f0, t0, ts2, ?_, ?_, ?_, herr0, ?_, ?_⟩
          · simp [Shape.lengthS]
            omega
          · simpa [Shape.getS] using hgf
          · simpa [RecordV.getR] using hgt
          · simpa [RecordV.getR] using hget
          · intro j hj
            cases j with
            | zero => omega
            | succ j' =>
              simp [RecordV.getR]
              exact hafter j' (by omega)

theorem insertAtR_append : ∀ (t1 : RecordV) (v : Value) (t2 : RecordV),
    RecordV.insertAtR t1.lengthR v (t1.appendR t2) = t1.appendR (.cons v t2)
| .nil, v, t2 => by
    simp [RecordV.insertAtR, RecordV.appendR, RecordV.lengthR]
| .cons w t1', v, t2 => by
    simp [RecordV.insertAtR, RecordV.appendR, RecordV.lengthR,
      insertAtR_append t1' v t2]

theorem nonSkip_insert_skip : ∀ (s1 s2 : Shape),
    (s1.appendS (.cons .skip s2)).nonSkipCount = (s1.appendS s2).nonSkipCount
| .nil, s2 => by
    simp [Shape.appendS, Shape.nonSkipCount]
| .cons f s1', s2 => by
    cases f <;> simp [Shape.appendS, Shape.nonSkipCount, nonSkip_insert_skip s1' s2]

theorem encodeFields_insert_skip : ∀ (s1 : Shape) (r1 : RecordV) (w : Value)
    (s2 : Shape) (r2 : RecordV), s1.lengthS = r1.lengthR →
    encodeFields (s1.appendS (.cons .skip s2)) (r1.appendR (.cons w r2)) =
      encodeFields (s1.appendS s2) (r1.appendR r2)
| .nil, r1, w, s2, r2 => by
    intro hl
    cases r1 with
    | cons _ _ => simp [Shape.lengthS, RecordV.lengthR] at hl
    | nil =>
      cases h2 : encodeFields s2 r2 with
      | error e => simp [Shape.appendS, RecordV.appendR, encodeFields, encodeField, h2]
      | ok ts => simp [Shape.appendS, RecordV.appendR, encodeFields, encodeField, h2]
| .cons f s1', r1, w, s2, r2 => by
    intro hl
    cases r1 with
    | nil => simp [Shape.lengthS, RecordV.lengthR] at hl
    | cons v r1' =>
      simp [Shape.lengthS, RecordV.lengthR] at hl
      cases hef : encodeField f v with
      | error e => simp [Shape.appendS, RecordV.appendR, encodeFields, hef]
      | ok tf =>
        have hrec := encodeFields_insert_skip s1' r1' w s2 r2 hl
        cases hrec2 : encodeFields (s1'.appendS s2) (r1'.appendR r2) with
        | error e =>
          simp [Shape.appendS, RecordV.appendR, encodeFields, hef, hrec, hrec2]
        | ok tfs =>
          simp [Shape.appendS, RecordV.appendR, encodeFields, hef, hrec, hrec2]

theorem decodeFields_insert_skip : ∀ (s1 : Shape) (t1 : RecordV) (tv : Value)
    (s2 : Shape) (t2 : RecordV) (toks : List Token), s1.lengthS = t1.lengthR →
    decodeFields (s1.appendS (.cons .skip s2)) (t1.appendR (.cons tv t2)) toks =
      (RecordV.insertAtR s1.lengthS tv
        (decodeFields (s1.appendS s2) (t1.appendR t2) toks).1,
       (decodeFields (s1.appendS s2) (t1.appendR t2) toks).2)
| .nil, t1, tv, s2, t2, toks => by
    intro hl
    cases t1 with
    | cons _ _ => simp [Shape.lengthS, RecordV.lengthR] at hl
    | nil =>
      simp [Shape.appendS, RecordV.appendR, Shape.lengthS, decodeFields, decodeField,
        RecordV.insertAtR]
| .cons f s1', t1, tv, s2, t2, toks => by
    intro hl
    cases t1 with
    | nil => simp [Shape.lengthS, RecordV.lengthR] at hl
    | cons t t1' =>
      simp [Shape.lengthS, RecordV.lengthR] at hl
      cases hdf : decodeField f t toks with
      | mk t2v res =>
        cases res with
        | error e =>
          simp [Shape.appendS, RecordV.appendR, decodeFields, hdf, Shape.lengthS,
            RecordV.insertAtR]
          rw [hl, insertAtR_append]
        | ok rest =>
          have hrec := decodeFields_insert_skip s1' t1' tv s2 t2 rest hl
          simp [Shape.appendS, RecordV.appendR, decodeFields, hdf, Shape.lengthS,
            RecordV.insertAtR, hrec]

theorem decodeField_optText_some : ∀ (t0 : String) (toks : List Token),
    ∃ y, (decodeField .optionalOwnedText (.optTextV (some t0)) toks).1 = .optTextV (some y) := by
  intro t0 toks
  cases toks with
  | nil => exact ⟨t0, by simp [decodeField]⟩
  | cons tok rest =>
    cases tok with
    | text s => exact ⟨s, by simp [decodeField]⟩
    | scalar tg v => exact ⟨t0, by simp [decodeField]⟩
    | arrayHeader n => exact ⟨t0, by simp [decodeField]⟩

theorem decodeField_optText_none : ∀ (toks : List Token),
    (decodeField .optionalOwnedText (.optTextV none) toks).1 = .optTextV none := by
  intro toks
  cases toks with
  | nil => simp [decodeField]
  | cons tok rest => cases tok <;> simp [decodeField]

theorem decodeField_optScalar_some : ∀ (tag : STag) (t0 : Int) (toks : List Token),
    ∃ y, (decodeField (.optionalOwnedScalar tag) (.optScalarV (some t0)) toks).1
      = .optScalarV (some y) := by
  intro tag t0 toks
  cases toks with
  | nil => exact ⟨t0, by simp [decodeField]⟩
  | cons tok rest =>
    cases tok with
    | text s => exact ⟨t0, by simp [decodeField]⟩
    | scalar tg v =>
      by_cases htg : tg = tag
      · exact ⟨v, by simp [decodeField, htg]⟩
      · exact ⟨t0, by simp [decodeField, htg]⟩
    | arrayHeader n => exact ⟨t0, by simp [decodeField]⟩

theorem decodeField_optScalar_none : ∀ (tag : STag) (toks : List Token),
    (decodeField (.optionalOwnedScalar tag) (.optScalarV none) toks).1 = .optScalarV none := by
  intro tag toks
  cases toks with
  | nil => simp [decodeField]
  | cons tok rest => cases tok <;> simp [decodeField]

theorem decodeFields_slot : ∀ (s : Shape) (tgt : RecordV) (toks : List Token) (i : Nat)
    (f : Field) (t : Value), s.getS i = some f → tgt.getR i = some t →
    (decodeFields s tgt toks).1.getR i = some t ∨
    ∃ ts2, (decodeFields s tgt toks).1.getR i = some (decodeField f t ts2).1
| .nil, tgt, toks, i, f, t => by
    intro hgf hgt
    simp [Shape.getS] at hgf
| .cons f0 s', tgt, toks, i, f, t => by
    intro hgf hgt
    cases tgt with
    | nil => simp [RecordV.getR] at hgt
    | cons t0 tr =>
      cases hdf : decodeField f0 t0 toks with
      | mk t2 res =>
        cases i with
        | zero =>
          simp [Shape.getS] at hgf
          simp [RecordV.getR] at hgt
          subst hgf
          subst hgt
          cases res with
          | error e =>
            have hres : decodeFields (Shape.cons f0 s') (RecordV.cons t0 tr) toks
                = (RecordV.cons t2 tr, Except.error e) := by
              rw [decodeFields, hdf]
            rw [hres]
            exact .inr ⟨toks, by rw [hdf]; simp [RecordV.getR]⟩
          | ok rest =>
            have hres : decodeFields (Shape.cons f0 s') (RecordV.cons t0 tr) toks
                = (RecordV.cons t2 (decodeFields s' tr rest).1,
                   (decodeFields s' tr rest).2) := by
              rw [decodeFields, hdf]
            rw [hres]
            exact .inr ⟨toks, by rw [hdf]; simp [RecordV.getR]⟩
        | succ i' =>
          simp [Shape.getS] at hgf
          simp [RecordV.getR] at hgt
          cases res with
          | error e =>
            have hres : decodeFields (Shape.cons f0 s') (RecordV.cons t0 tr) toks
                = (RecordV.cons t2 tr, Except.error e) := by
              rw [decodeFields, hdf]
            rw [hres]
            exact .inl (by simpa [RecordV.getR] using hgt)
          | ok rest =>
            have hres : decodeFields (Shape.cons f0 s') (RecordV.cons t0 tr) toks
                = (RecordV.cons t2 (decodeFields s' tr rest).1,
                   (decodeFields s' tr rest).2) := by
              rw [decodeFields, hdf]
            rw [hres]
            rcases decodeFields_slot s' tr rest i' f t hgf hgt with h | ⟨ts2, h⟩
            · exact .inl (by simpa [RecordV.getR] using h)
            · exact .inr ⟨ts2, by simpa [RecordV.getR] using h⟩

theorem validFields_getR_exists : ∀ (s : Shape) (r : RecordV) (i : Nat) (f : Field),
    validFields s r = true → s.getS i = some f →
    ∃ v, r.getR i = some v ∧ validField f v = true
| .nil, r, i, f => by
    intro hv hgf
    simp [Shape.getS] at hgf
| .cons f0 s', r, i, f => by
    intro hv hgf
    obtain ⟨v, r', rfl, hv1, hv2⟩ := validFields_cons hv
    cases i with
    | zero =>
      simp [Shape.getS] at hgf
      subst hgf
      exact ⟨v, by simp [RecordV.getR], hv1⟩
    | succ i' =>
      simp [Shape.getS] at hgf
      obtain ⟨w, hw, hvw⟩ := validFields_getR_exists s' r' i' f hv2 hgf
      exact ⟨w, by simpa [RecordV.getR] using hw, hvw⟩

theorem targetOkFields_getR_exists : ∀ (s : Shape) (tgt : RecordV) (i : Nat) (f : Field),
    targetOkFields s tgt = true → s.getS i = some f →
    ∃ t, tgt.getR i = some t ∧ targetOkField f t = true
| .nil, tgt, i, f => by
    intro ht hgf
    simp [Shape.getS] at hgf
| .cons f0 s', tgt, i, f => by
    intro ht hgf
    obtain ⟨t, tgt', rfl, ht1, ht2⟩ := targetOkFields_cons ht
    cases i with
    | zero =>
      simp [Shape.getS] at hgf
      subst hgf
      exact ⟨t, by simp [RecordV.getR], ht1⟩
    | succ i' =>
      simp [Shape.getS] at hgf
      obtain ⟨w, hw, htw⟩ := targetOkFields_getR_exists s' tgt' i' f ht2 hgf
      exact ⟨w, by simpa [RecordV.getR] using hw, htw⟩

theorem mergeFields_getR : ∀ (s : Shape) (r tgt : RecordV) (i : Nat) (f : Field)
    (v t : Value), validFields s r = true → targetOkFields s tgt = true →
    s.getS i = some f → r.getR i = some v → tgt.getR i = some t →
    (mergeFields s r tgt).getR i = some (mergeField f v t)
| .nil, r, tgt, i, f, v, t => by
    intro hv ht hgf hgv hgt
    simp [Shape.getS] at hgf
| .cons f0 s', r, tgt, i, f, v, t => by
    intro hv ht hgf hgv hgt
    obtain ⟨v0, r', rfl, hv1, hv2⟩ := validFields_cons hv
    obtain ⟨t0, tgt', rfl, ht1, ht2⟩ := targetOkFields_cons ht
    cases i with
    | zero =>
      simp [Shape.getS] at hgf
      simp [RecordV.getR] at hgv hgt
      subst hgf
      subst hgv
      subst hgt
      rw [mergeFields]
      simp [RecordV.getR]
    | succ i' =>
      simp [Shape.getS] at hgf
      simp [RecordV.getR] at hgv hgt
      rw [mergeFields]
      simpa [RecordV.getR] using
        mergeFields_getR s' r' tgt' i' f v t hv2 ht2 hgf hgv hgt

theorem decodeField_optText_empty (t : Value) :
    (decodeField .optionalOwnedText t []).1 = t := by
  cases t with
  | optTextV a => cases a <;> simp [decodeField]
  | scalarV a => simp [decodeField]
  | textV a => simp [decodeField]
  | arrayV a => simp [decodeField]
  | nestedV a => simp [decodeField]
  | optScalarV a => cases a <;> simp [decodeField]
  | unitV => simp [decodeField]

theorem decodeField_optScalar_empty (tag : STag) (t : Value) :
    (decodeField (.optionalOwnedScalar tag) t []).1 = t := by
  cases t with
  | optScalarV a => cases a <;> simp [decodeField]
  | scalarV a => simp [decodeField]
  | textV a => simp [decodeField]
  | arrayV a => simp [decodeField]
  | nestedV a => simp [decodeField]
  | optTextV a => cases a <;> simp [decodeField]
  | unitV => simp [decodeField]

/-- C1 (counterexample): as frozen, the round-trip claim admits records whose
optional references are absent (its validity clause constrains only text and
arrays); for the one-field shape `[OptionalOwnedScalar Int32]` and the record
with an absent reference, encode emits only the composite header, and decoding
those bytes into a caller-prepared target fails with `Truncated` and does not
reproduce the record. -/
theorem claim_C1_roundtrip_counterexample :
    claimValidFields (.cons (.optionalOwnedScalar .int32) .nil)
      (.cons (.optScalarV none) .nil) = true ∧
    encode (.cons (.optScalarV none) .nil) (.cons (.optionalOwnedScalar .int32) .nil)
      = .ok [.arrayHeader 1] ∧
    (decode [.arrayHeader 1] (.cons (.optionalOwnedScalar .int32) .nil)
      (.cons (.optScalarV (some 0)) .nil)).2 = .error .truncated ∧
    (decode [.arrayHeader 1] (.cons (.optionalOwnedScalar .int32) .nil)
      (.cons (.optScalarV (some 0)) .nil)).1 ≠ .cons (.optScalarV none) .nil :=
  ⟨rfl, rfl, rfl, by decide⟩

/-- C1 (amended): for every Record of a Shape whose field values are valid and
whose optional references are all present, encoding succeeds and decoding the
produced bytes into a caller-prepared target succeeds, consumes the whole
stream, and yields a record that agrees with the original on every
wire-represented (non-Skip) field — exactly equal when the shape has no Skip
fields. -/
theorem claim_C1_roundtrip (s : Shape) (r tgt : RecordV)
    (hv : validFields s r = true) (ht : targetOkFields s tgt = true) :
    ∃ ts out, encode r s = .ok ts ∧ decode ts s tgt = (out, .ok []) ∧
      agreeFields s r out = true ∧ (skipFreeS s = true → out = r) := by
  obtain ⟨body, henc⟩ := encodeFields_total s r hv
  have he : encode r s = .ok (.arrayHeader s.nonSkipCount :: body) := by
    rw [encode, henc]
  exact ⟨_, mergeFields s r tgt, he, decode_encode hv ht he,
    agreeFields_merge s r tgt hv ht,
    fun hsf => mergeFields_skipFree s r tgt hsf hv ht⟩

theorem claim_C1_roundtrip_witness :
    validFields (.cons (.fixedText 8) .nil) (.cons (.textV "Test") .nil) = true ∧
    targetOkFields (.cons (.fixedText 8) .nil) (.cons (.textV "") .nil) = true ∧
    (∃ ts out,
      encode (.cons (.textV "Test") .nil) (.cons (.fixedText 8) .nil) = .ok ts ∧
      decode ts (.cons (.fixedText 8) .nil) (.cons (.textV "") .nil) = (out, .ok []) ∧
      agreeFields (.cons (.fixedText 8) .nil) (.cons (.textV "Test") .nil) out = true ∧
      (skipFreeS (.cons (.fixedText 8) .nil) = true → out = .cons (.textV "Test") .nil)) :=
  ⟨rfl, rfl, claim_C1_roundtrip _ _ _ rfl rfl⟩

/-- C2: capacity boundary for `FixedText` of capacity `c`: content of length
exactly `c - 1` encodes and decodes successfully; content of length `c` or
greater fails encode with `EncodeError`; a wire text item of content length
`≥ c` fails decode with `DecodeError.Overflow` leaving the target slot
untouched; and whatever a `FixedText` decode stores fits, with its
terminator, inside the caller's `c`-byte buffer (content length `< c`). -/
theorem claim_C2_fixedText_capacity :
    (∀ (cap : Nat) (s0 : String) (t : Value) (rest : List Token),
       s0.length + 1 = cap →
       encodeField (.fixedText cap) (.textV s0) = .ok [.text s0] ∧
       decodeField (.fixedText cap) t (.text s0 :: rest) = (.textV s0, .ok rest)) ∧
    (∀ (cap : Nat) (s0 : String), cap ≤ s0.length →
       encodeField (.fixedText cap) (.textV s0) = .error .capacityExceeded) ∧
    (∀ (cap : Nat) (s0 : String) (t : Value) (rest : List Token), cap ≤ s0.length →
       decodeField (.fixedText cap) t (.text s0 :: rest) = (t, .error .overflow)) ∧
    (∀ (cap : Nat) (t out : Value) (toks rest2 : List Token),
       decodeField (.fixedText cap) t toks = (out, .ok rest2) →
       ∃ s1, out = .textV s1 ∧ s1.length < cap) := by
  refine ⟨?_, ?_, ?_, ?_⟩
  · intro cap s0 t rest hlen
    have hlt : ¬ cap ≤ s0.length := by omega
    exact ⟨by simp [encodeField, hlt], by simp [decodeField, hlt]⟩
  · intro cap s0 hle
    simp [encodeField, hle]
  · intro cap s0 t rest hle
    simp [decodeField, hle]
  · intro cap t out toks rest2 hdec
    cases toks with
    | nil => simp [decodeField] at hdec
    | cons tok rest =>
      cases tok with
      | text s =>
        by_cases hle : cap ≤ s.length
        · simp [decodeField, hle] at hdec
        · simp [decodeField, hle] at hdec
          exact ⟨s, hdec.1.symm, by omega⟩
      | scalar tg v => simp [decodeField] at hdec
      | arrayHeader n => simp [decodeField] at hdec

theorem claim_C2_fixedText_capacity_witness :
    ("1234567".length + 1 = 8 ∧
      encodeField (.fixedText 8) (.textV "1234567") = .ok [.text "1234567"] ∧
      decodeField (.fixedText 8) (.textV "") [.text "1234567"]
        = (.textV "1234567", .ok [])) ∧
    (8 ≤ "12345678".length ∧
      encodeField (.fixedText 8) (.textV "12345678") = .error .capacityExceeded) ∧
    (8 ≤ "12345678".length ∧
      decodeField (.fixedText 8) (.textV "") [.text "12345678"]
        = (.textV "", .error .overflow)) ∧
    (decodeField (.fixedText 8) (.textV "") [.text "Test"] = (.textV "Test", .ok []) ∧
      ∃ s1, Value.textV "Test" = .textV s1 ∧ s1.length < 8) :=
  ⟨⟨by decide, (claim_C2_fixedText_capacity.1 8 "1234567" (.textV "") [] (by decide)).1,
     by simpa using (claim_C2_fixedText_capacity.1 8 "1234567" (.textV "") [] (by decide)).2⟩,
   ⟨by decide, claim_C2_fixedText_capacity.2.1 8 "12345678" (by decide)⟩,
   ⟨by decide, by simpa using claim_C2_fixedText_capacity.2.2.1 8 "12345678" (.textV "") [] (by decide)⟩,
   ⟨rfl, claim_C2_fixedText_capacity.2.2.2 8 (.textV "") (.textV "Test") [.text "Test"] [] rfl⟩⟩

/-- C3: decode first opens the top-level composite item and fails with
`DecodeError.ShapeMismatch`, leaving the target untouched, whenever the
composite's declared element count differs from the Shape's non-Skip field
count; in particular bytes produced for Shape `A` decoded into a Shape `B`
with a different non-Skip field count fail with `ShapeMismatch`. -/
theorem claim_C3_shape_count (c : Nat) (rest : List Token) (sB : Shape)
    (tgt rA : RecordV) (sA : Shape) (ts : List Token) :
    (c ≠ sB.nonSkipCount →
       decode (.arrayHeader c :: rest) sB tgt = (tgt, .error .shapeMismatch)) ∧
    (encode rA sA = .ok ts → sA.nonSkipCount ≠ sB.nonSkipCount →
       decode ts sB tgt = (tgt, .error .shapeMismatch)) := by
  constructor
  · intro hne
    simp [decode, hne]
  · intro he hne
    rw [encode] at he
    cases hef : encodeFields sA rA with
    | error e => rw [hef] at he; exact absurd he (by simp)
    | ok body =>
      rw [hef] at he
      simp at he
      subst he
      simp [decode, hne]

theorem claim_C3_shape_count_witness :
    (2 ≠ (Shape.cons (.scalarF .int32) .nil).nonSkipCount ∧
      decode [.arrayHeader 2, .scalar .int32 5] (.cons (.scalarF .int32) .nil)
        (.cons (.scalarV 0) .nil)
        = (.cons (.scalarV 0) .nil, .error .shapeMismatch)) ∧
    (encode (.cons (.scalarV 5) (.cons (.scalarV 6) .nil))
        (.cons (.scalarF .int32) (.cons (.scalarF .int32) .nil)) = .ok
        [.arrayHeader 2, .scalar .int32 5, .scalar .int32 6] ∧
      (Shape.cons (.scalarF .int32) (.cons (.scalarF .int32) .nil)).nonSkipCount
        ≠ (Shape.cons (.scalarF .int32) .nil).nonSkipCount ∧
      decode [.arrayHeader 2, .scalar .int32 5, .scalar .int32 6]
        (.cons (.scalarF .int32) .nil) (.cons (.scalarV 0) .nil)
        = (.cons (.scalarV 0) .nil, .error .shapeMismatch)) :=
  ⟨⟨by decide,
     (claim_C3_shape_count 2 [.scalar .int32 5] (.cons (.scalarF .int32) .nil)
       (.cons (.scalarV 0) .nil) .nil .nil []).1 (by decide)⟩,
   ⟨rfl, by decide,
     (claim_C3_shape_count 2 [] (.cons (.scalarF .int32) .nil)
       (.cons (.scalarV 0) .nil)
       (.cons (.scalarV 5) (.cons (.scalarV 6) .nil))
       (.cons (.scalarF .int32) (.cons (.scalarF .int32) .nil))
       [.arrayHeader 2, .scalar .int32 5, .scalar .int32 6]).2 rfl (by decide)⟩⟩

/-- C4: the first field that fails aborts the whole decode with its typed
error: either the failure happened while opening the top-level composite
(target fully untouched), or there is a failing field position `k` whose
slot holds exactly what its own field decode left there, and every field
after `k` is left exactly as the caller initialized it — earlier fields
keep the writes decoding already made (no rollback). -/
theorem claim_C4_failure_atomicity (toks : List Token) (s : Shape) (tgt : RecordV)
    (e : DecodeError) (hlen : s.lengthS = tgt.lengthR)
    (herr : (decode toks s tgt).2 = .error e) :
    (decode toks s tgt).1 = tgt ∨
    ∃ k f t ts2, k < s.lengthS ∧ s.getS k = some f ∧ tgt.getR k = some t ∧
      (decodeField f t ts2).2 = .error e ∧
      (decode toks s tgt).1.getR k = some (decodeField f t ts2).1 ∧
      ∀ j, k < j → (decode toks s tgt).1.getR j = tgt.getR j := by
  cases toks with
  | nil => left; simp [decode]
  | cons tok rest =>
    cases tok with
    | scalar tg v => left; simp [decode]
    | text s0 => left; simp [decode]
    | arrayHeader c =>
      by_cases hc : c = s.nonSkipCount
      · right
        have hd : decode (.arrayHeader c :: rest) s tgt = decodeFields s tgt rest := by
          simp [decode, hc]
        rw [hd] at herr ⊢
        exact decodeFields_error_frame s tgt rest e hlen herr
      · left
        simp [decode, hc]

theorem claim_C4_failure_atomicity_witness :
    (Shape.cons (.scalarF .int32) .nil).lengthS
      = (RecordV.cons (.scalarV 7) .nil).lengthR ∧
    (decode [.arrayHeader 1, .text "x"] (.cons (.scalarF .int32) .nil)
      (.cons (.scalarV 7) .nil)).2 = .error .typeMismatch ∧
    ((decode [.arrayHeader 1, .text "x"] (.cons (.scalarF .int32) .nil)
        (.cons (.scalarV 7) .nil)).1 = .cons (.scalarV 7) .nil ∨
      ∃ k f t ts2, k < (Shape.cons (.scalarF .int32) .nil).lengthS ∧
        (Shape.cons (.scalarF .int32) .nil).getS k = some f ∧
        (RecordV.cons (.scalarV 7) .nil).getR k = some t ∧
        (decodeField f t ts2).2 = .error .typeMismatch ∧
        (decode [.arrayHeader 1, .text "x"] (.cons (.scalarF .int32) .nil)
          (.cons (.scalarV 7) .nil)).1.getR k = some (decodeField f t ts2).1 ∧
        ∀ j, k < j →
          (decode [.arrayHeader 1, .text "x"] (.cons (.scalarF .int32) .nil)
            (.cons (.scalarV 7) .nil)).1.getR j
            = (RecordV.cons (.scalarV 7) .nil).getR j) :=
  ⟨rfl, rfl,
    claim_C4_failure_atomicity [.arrayHeader 1, .text "x"]
      (.cons (.scalarF .int32) .nil) (.cons (.scalarV 7) .nil) .typeMismatch rfl rfl⟩

/-- C5: an absent optional reference is wire-silent — encode emits no item
and no marker of any kind for that position — and decoding a stream in
which a trailing optional field's item is absent leaves the caller's
pre-allocated slot for that field exactly as it was before the call. -/
theorem claim_C5_wire_silent_absence :
    (∀ tag, encodeField (.optionalOwnedScalar tag) (.optScalarV none) = .ok []) ∧
    (encodeField .optionalOwnedText (.optTextV none) = .ok []) ∧
    (∀ t : Value, (decodeField .optionalOwnedText t []).1 = t) ∧
    (∀ (tag : STag) (t : Value), (decodeField (.optionalOwnedScalar tag) t []).1 = t) ∧
    (∀ (tag : STag) (t : Value),
       encode (.cons (.optScalarV none) .nil) (.cons (.optionalOwnedScalar tag) .nil)
         = .ok [.arrayHeader 1] ∧
       (decode [.arrayHeader 1] (.cons (.optionalOwnedScalar tag) .nil)
         (.cons t .nil)).1 = .cons t .nil) := by
  refine ⟨fun tag => by simp [encodeField], by simp [encodeField],
    decodeField_optText_empty, decodeField_optScalar_empty, ?_⟩
  intro tag t
  refine ⟨by simp [encode, encodeFields, encodeField, Shape.nonSkipCount], ?_⟩
  have hone : (Shape.cons (.optionalOwnedScalar tag) .nil).nonSkipCount = 1 := rfl
  cases hdf : decodeField (.optionalOwnedScalar tag) t [] with
  | mk t2 res =>
    have ht2 : t2 = t := by
      have h := decodeField_optScalar_empty tag t
      rw [hdf] at h
      exact h
    cases res with
    | error e =>
      have hres : decode [.arrayHeader 1] (.cons (.optionalOwnedScalar tag) .nil)
          (.cons t .nil) = (.cons t2 .nil, .error e) := by
        simp [decode, hone]
        rw [decodeFields, hdf]
      rw [hres, ht2]
    | ok rest2 =>
      have hres : decode [.arrayHeader 1] (.cons (.optionalOwnedScalar tag) .nil)
          (.cons t .nil) = (.cons t2 .nil, .ok rest2) := by
        simp [decode, hone]
        rw [decodeFields, hdf]
        simp [decodeFields]
      rw [hres, ht2]

/-- C6: the concrete scenario of spec §8: the Shape
`[Int32, FixedText(8), FixedArray(UInt8,4)]` with record
`{id=123, name="Test", flags=[1,2,3,4]}` encodes to a composite item
declaring exactly 3 elements, that output decodes back to the identical
record consuming the whole stream, and the same items with the declared
count altered to 2 fail decode with `ShapeMismatch`, the target untouched
(no fields read). -/
theorem claim_C6_concrete_scenario :
    encode
      (.cons (.scalarV 123) (.cons (.textV "Test") (.cons (.arrayV [1, 2, 3, 4]) .nil)))
      (.cons (.scalarF .int32) (.cons (.fixedText 8) (.cons (.fixedArray .uint8 4) .nil)))
      = .ok [.arrayHeader 3, .scalar .int32 123, .text "Test", .arrayHeader 4,
             .scalar .uint8 1, .scalar .uint8 2, .scalar .uint8 3, .scalar .uint8 4] ∧
    decode [.arrayHeader 3, .scalar .int32 123, .text "Test", .arrayHeader 4,
            .scalar .uint8 1, .scalar .uint8 2, .scalar .uint8 3, .scalar .uint8 4]
      (.cons (.scalarF .int32) (.cons (.fixedText 8) (.cons (.fixedArray .uint8 4) .nil)))
      (.cons (.scalarV 0) (.cons (.textV "") (.cons (.arrayV [0, 0, 0, 0]) .nil)))
      = (.cons (.scalarV 123) (.cons (.textV "Test") (.cons (.arrayV [1, 2, 3, 4]) .nil)),
         .ok []) ∧
    decode [.arrayHeader 2, .scalar .int32 123, .text "Test", .arrayHeader 4,
            .scalar .uint8 1, .scalar .uint8 2, .scalar .uint8 3, .scalar .uint8 4]
      (.cons (.scalarF .int32) (.cons (.fixedText 8) (.cons (.fixedArray .uint8 4) .nil)))
      (.cons (.scalarV 0) (.cons (.textV "") (.cons (.arrayV [0, 0, 0, 0]) .nil)))
      = (.cons (.scalarV 0) (.cons (.textV "") (.cons (.arrayV [0, 0, 0, 0]) .nil)),
         .error .shapeMismatch) :=
  ⟨rfl, rfl, rfl⟩

/-- C7: Skip transparency: inserting a `Skip`-tagged field descriptor (with
any host-record slot value) at any position changes neither the encode
result — hence neither the encoded byte length — nor any other decoded
field, nor the decode status and wire cursor: the decode result is the
skip-free decode result with the untouched target slot re-inserted. -/
theorem claim_C7_skip_transparency (s1 s2 : Shape) (r1 r2 : RecordV) (w : Value)
    (t1 t2 : RecordV) (tv : Value) (toks : List Token)
    (hlr : s1.lengthS = r1.lengthR) (hlt : s1.lengthS = t1.lengthR) :
    encode (r1.appendR (.cons w r2)) (s1.appendS (.cons .skip s2))
      = encode (r1.appendR r2) (s1.appendS s2) ∧
    encodedLength (r1.appendR (.cons w r2)) (s1.appendS (.cons .skip s2))
      = encodedLength (r1.appendR r2) (s1.appendS s2) ∧
    decode toks (s1.appendS (.cons .skip s2)) (t1.appendR (.cons tv t2))
      = (RecordV.insertAtR s1.lengthS tv
          (decode toks (s1.appendS s2) (t1.appendR t2)).1,
         (decode toks (s1.appendS s2) (t1.appendR t2)).2) := by
  have hef := encodeFields_insert_skip s1 r1 w s2 r2 hlr
  have hns := nonSkip_insert_skip s1 s2
  have henc : encode (r1.appendR (.cons w r2)) (s1.appendS (.cons .skip s2))
      = encode (r1.appendR r2) (s1.appendS s2) := by
    rw [encode, encode, hef, hns]
  refine ⟨henc, by rw [encodedLength, encodedLength, henc], ?_⟩
  cases toks with
  | nil =>
    simp [decode]
    rw [hlt, insertAtR_append]
  | cons tok rest =>
    cases tok with
    | scalar tg v =>
      simp [decode]
      rw [hlt, insertAtR_append]
    | text s0 =>
      simp [decode]
      rw [hlt, insertAtR_append]
    | arrayHeader c =>
      by_cases hc : c = (s1.appendS s2).nonSkipCount
      · subst hc
        simp [decode, hns]
        exact decodeFields_insert_skip s1 t1 tv s2 t2 rest hlt
      · have hc2 : ¬ c = (s1.appendS (.cons .skip s2)).nonSkipCount := by
          rw [hns]; exact hc
        simp [decode, hc, hc2]
        rw [hlt, insertAtR_append]

theorem claim_C7_skip_transparency_witness :
    (Shape.cons (.scalarF .int32) .nil).lengthS
      = (RecordV.cons (.scalarV 7) .nil).lengthR ∧
    (Shape.cons (.scalarF .int32) .nil).lengthS
      = (RecordV.cons (.scalarV 0) .nil).lengthR ∧
    (encode ((RecordV.cons (.scalarV 7) .nil).appendR
        (.cons .unitV (.cons (.scalarV 9) .nil)))
      ((Shape.cons (.scalarF .int32) .nil).appendS
        (.cons .skip (.cons (.scalarF .int32) .nil)))
      = encode ((RecordV.cons (.scalarV 7) .nil).appendR (.cons (.scalarV 9) .nil))
          ((Shape.cons (.scalarF .int32) .nil).appendS (.cons (.scalarF .int32) .nil)) ∧
     encodedLength ((RecordV.cons (.scalarV 7) .nil).appendR
        (.cons .unitV (.cons (.scalarV 9) .nil)))
      ((Shape.cons (.scalarF .int32) .nil).appendS
        (.cons .skip (.cons (.scalarF .int32) .nil)))
      = encodedLength ((RecordV.cons (.scalarV 7) .nil).appendR (.cons (.scalarV 9) .nil))
          ((Shape.cons (.scalarF .int32) .nil).appendS (.cons (.scalarF .int32) .nil)) ∧
     decode [.arrayHeader 2, .scalar .int32 7, .scalar .int32 9]
        ((Shape.cons (.scalarF .int32) .nil).appendS
          (.cons .skip (.cons (.scalarF .int32) .nil)))
        ((RecordV.cons (.scalarV 0) .nil).appendR (.cons .unitV (.cons (.scalarV 0) .nil)))
      = (RecordV.insertAtR (Shape.cons (.scalarF .int32) .nil).lengthS .unitV
          (decode [.arrayHeader 2, .scalar .int32 7, .scalar .int32 9]
            ((Shape.cons (.scalarF .int32) .nil).appendS (.cons (.scalarF .int32) .nil))
            ((RecordV.cons (.scalarV 0) .nil).appendR (.cons (.scalarV 0) .nil))).1,
         (decode [.arrayHeader 2, .scalar .int32 7, .scalar .int32 9]
            ((Shape.cons (.scalarF .int32) .nil).appendS (.cons (.scalarF .int32) .nil))
            ((RecordV.cons (.scalarV 0) .nil).appendR (.cons (.scalarV 0) .nil))).2)) :=
  ⟨rfl, rfl,
    claim_C7_skip_transparency (.cons (.scalarF .int32) .nil) (.cons (.scalarF .int32) .nil)
      (.cons (.scalarV 7) .nil) (.cons (.scalarV 9) .nil) .unitV
      (.cons (.scalarV 0) .nil) (.cons (.scalarV 0) .nil) .unitV
      [.arrayHeader 2, .scalar .int32 7, .scalar .int32 9] rfl rfl⟩

/-- C8: nested fidelity: for two valid outer Records that carry the same
nested Record at a `Nested` field position but may differ in every other
field, encode-then-decode into the same caller-prepared target yields the
same decoded value at that position, and that value agrees field-by-field
(on wire-represented fields) with the original nested Record. -/
theorem claim_C8_nested_fidelity (s : Shape) (r r' tgt : RecordV) (i : Nat)
    (ns : Shape) (ts ts' : List Token)
    (hv : validFields s r = true) (hv' : validFields s r' = true)
    (ht : targetOkFields s tgt = true)
    (hgf : s.getS i = some (.nested ns))
    (hagree : r.getR i = r'.getR i)
    (he : encode r s = .ok ts) (he' : encode r' s = .ok ts') :
    (decode ts s tgt).1.getR i = (decode ts' s tgt).1.getR i ∧
    ∃ a b, r.getR i = some a ∧ (decode ts s tgt).1.getR i = some b ∧
      agreeField (.nested ns) a b = true := by
  have hd := decode_encode hv ht he
  have hd' := decode_encode hv' ht he'
  rw [hd, hd']
  obtain ⟨v, hgv, hvv⟩ := validFields_getR_exists s r i _ hv hgf
  obtain ⟨t, hgt, htt⟩ := targetOkFields_getR_exists s tgt i _ ht hgf
  have hgv' : r'.getR i = some v := by rw [← hagree]; exact hgv
  have hm := mergeFields_getR s r tgt i _ v t hv ht hgf hgv hgt
  have hm' := mergeFields_getR s r' tgt i _ v t hv' ht hgf hgv' hgt
  constructor
  · simp only [hm, hm']
  · exact ⟨v, mergeField (.nested ns) v t, hgv, by simpa using hm,
      agreeField_merge (.nested ns) v t hvv htt⟩

theorem claim_C8_nested_fidelity_witness :
    validFields
      (.cons (.nested (.cons (.scalarF .int32) .nil)) (.cons (.scalarF .int32) .nil))
      (.cons (.nestedV (.cons (.scalarV 456) .nil)) (.cons (.scalarV 1) .nil)) = true ∧
    validFields
      (.cons (.nested (.cons (.scalarF .int32) .nil)) (.cons (.scalarF .int32) .nil))
      (.cons (.nestedV (.cons (.scalarV 456) .nil)) (.cons (.scalarV 2) .nil)) = true ∧
    targetOkFields
      (.cons (.nested (.cons (.scalarF .int32) .nil)) (.cons (.scalarF .int32) .nil))
      (.cons (.nestedV (.cons (.scalarV 0) .nil)) (.cons (.scalarV 0) .nil)) = true ∧
    ((decode [.arrayHeader 2, .arrayHeader 1, .scalar .int32 456, .scalar .int32 1]
        (.cons (.nested (.cons (.scalarF .int32) .nil)) (.cons (.scalarF .int32) .nil))
        (.cons (.nestedV (.cons (.scalarV 0) .nil)) (.cons (.scalarV 0) .nil))).1.getR 0
      = (decode [.arrayHeader 2, .arrayHeader 1, .scalar .int32 456, .scalar .int32 2]
        (.cons (.nested (.cons (.scalarF .int32) .nil)) (.cons (.scalarF .int32) .nil))
        (.cons (.nestedV (.cons (.scalarV 0) .nil)) (.cons (.scalarV 0) .nil))).1.getR 0 ∧
     ∃ a b,
       (RecordV.cons (.nestedV (.cons (.scalarV 456) .nil))
         (.cons (.scalarV 1) .nil)).getR 0 = some a ∧
       (decode [.arrayHeader 2, .arrayHeader 1, .scalar .int32 456, .scalar .int32 1]
         (.cons (.nested (.cons (.scalarF .int32) .nil)) (.cons (.scalarF .int32) .nil))
         (.cons (.nestedV (.cons (.scalarV 0) .nil)) (.cons (.scalarV 0) .nil))).1.getR 0
         = some b ∧
       agreeField (.nested (.cons (.scalarF .int32) .nil)) a b = true) :=
  ⟨rfl, rfl, rfl,
    claim_C8_nested_fidelity
      (.cons (.nested (.cons (.scalarF .int32) .nil)) (.cons (.scalarF .int32) .nil))
      (.cons (.nestedV (.cons (.scalarV 456) .nil)) (.cons (.scalarV 1) .nil))
      (.cons (.nestedV (.cons (.scalarV 456) .nil)) (.cons (.scalarV 2) .nil))
      (.cons (.nestedV (.cons (.scalarV 0) .nil)) (.cons (.scalarV 0) .nil))
      0 (.cons (.scalarF .int32) .nil)
      [.arrayHeader 2, .arrayHeader 1, .scalar .int32 456, .scalar .int32 1]
      [.arrayHeader 2, .arrayHeader 1, .scalar .int32 456, .scalar .int32 2]
      rfl rfl rfl rfl rfl rfl rfl⟩

/-- C9: decode populates, never allocates: at every optional field position,
a target slot whose reference is present (caller-pre-allocated) is still
present after decode — only its payload may change — and a slot whose
reference is absent is still absent after decode: decode never creates or
re-points the optional member's storage. -/
theorem claim_C9_decode_never_allocates (s : Shape) (tgt : RecordV)
    (toks : List Token) (i : Nat) (tag : STag) :
    (s.getS i = some .optionalOwnedText →
      (∀ t0, tgt.getR i = some (.optTextV (some t0)) →
        ∃ y, (decodeFields s tgt toks).1.getR i = some (.optTextV (some y))) ∧
      (tgt.getR i = some (.optTextV none) →
        (decodeFields s tgt toks).1.getR i = some (.optTextV none))) ∧
    (s.getS i = some (.optionalOwnedScalar tag) →
      (∀ t0, tgt.getR i = some (.optScalarV (some t0)) →
        ∃ y, (decodeFields s tgt toks).1.getR i = some (.optScalarV (some y))) ∧
      (tgt.getR i = some (.optScalarV none) →
        (decodeFields s tgt toks).1.getR i = some (.optScalarV none))) := by
  constructor
  · intro hgf
    constructor
    · intro t0 hgt
      rcases decodeFields_slot s tgt toks i _ _ hgf hgt with h | ⟨ts2, h⟩
      · exact ⟨t0, h⟩
      · obtain ⟨y, hy⟩ := decodeField_optText_some t0 ts2
        exact ⟨y, by rw [h, hy]⟩
    · intro hgt
      rcases decodeFields_slot s tgt toks i _ _ hgf hgt with h | ⟨ts2, h⟩
      · exact h
      · rw [h, decodeField_optText_none]
  · intro hgf
    constructor
    · intro t0 hgt
      rcases decodeFields_slot s tgt toks i _ _ hgf hgt with h | ⟨ts2, h⟩
      · exact ⟨t0, h⟩
      · obtain ⟨y, hy⟩ := decodeField_optScalar_some tag t0 ts2
        exact ⟨y, by rw [h, hy]⟩
    · intro hgt
      rcases decodeFields_slot s tgt toks i _ _ hgf hgt with h | ⟨ts2, h⟩
      · exact h
      · rw [h, decodeField_optScalar_none]

theorem claim_C9_decode_never_allocates_witness :
    (Shape.cons .optionalOwnedText .nil).getS 0 = some .optionalOwnedText ∧
    (RecordV.cons (.optTextV (some "")) .nil).getR 0 = some (.optTextV (some "")) ∧
    (∃ y, (decodeFields (.cons .optionalOwnedText .nil)
        (.cons (.optTextV (some "")) .nil) [.text "alice@example.com"]).1.getR 0
      = some (.optTextV (some y))) :=
  ⟨rfl, rfl,
    ((claim_C9_decode_never_allocates (.cons .optionalOwnedText .nil)
      (.cons (.optTextV (some "")) .nil) [.text "alice@example.com"] 0 .int32).1
      rfl).1 "" rfl⟩

/-- C10: the demo `main` of `my_data.c` exits with status 0 exactly when
every fallible setup step (the four allocations, encode, decode) succeeds
and every field-by-field comparison between the original and decoded
`Person` passes — names, age, student flag, location, all five scores,
email, id, balance, address, notes, and favorite-number including
null-pointer agreement — and with status 1 otherwise. -/
theorem claim_C10_demo_exit_status (a b c d e f : Bool) (o dec : PersonC) :
    (mainExit a b c d e f o dec = 0 ↔
      (a = true ∧ b = true ∧ c = true ∧ d = true ∧ e = true ∧ f = true ∧
       personCompare o dec = true)) ∧
    (mainExit a b c d e f o dec = 1 ↔
      ¬(a = true ∧ b = true ∧ c = true ∧ d = true ∧ e = true ∧ f = true ∧
        personCompare o dec = true)) := by
  cases a <;> cases b <;> cases c <;> cases d <;> cases e <;> cases f <;>
    cases hpc : personCompare o dec <;> simp [mainExit, hpc]

end Ailuropoda
